import Mathlib

/-!
# Verification of the Battle Dinghy game core

Shallow embedding of the deterministic game core of the Battle Dinghy
repository, together with proofs of the specification claims about it.

The embedding covers:
* the salvo engine (`src/core/game/salvo.ts`): `generateShots`, `processSalvo`;
* the placement engine (`src/core/game/placement.ts`): `validatePlacement`,
  `determineOrientation`, `getCellLabel`, `parseCellLabel`;
* the lifecycle state machine (`src/core/game/state-machine.ts`): `transition`
  and its per-state handlers.

Conventions of the embedding:
* JavaScript numbers that are only ever integers in the source are modelled as
  `Nat` (or `Int` where the source range checks can receive negatives);
* thrown exceptions are modelled with `Except`;
* `Date` values are modelled as millisecond timestamps (`Nat`), and the single
  call to `Date.now()` in the source becomes an explicit `now : Nat` argument
  of `transition`;
* JavaScript `Set`/`Map` objects are modelled as lists with the corresponding
  insertion-order semantics (`setAdd`, `mapSet`).
-/

namespace BattleDinghy

/-! ## Salvo engine: `generateShots` (src/core/game/salvo.ts)

The source walks the 64-character hex hash in 4-hex-character chunks; each
chunk value, mod the number of remaining cells, drives an inner `while` loop
that scans `cellIndex` upwards, counting unselected cells in `skipped`.
-/

/-- Value of one lowercase hex digit, as computed by `parseInt(·, 16)` on the
already lowercased hash (digits `0`-`9` and letters `a`-`f`). -/
def hexDigitVal (c : Char) : Nat :=
  if '0' ≤ c ∧ c ≤ '9' then c.toNat - 48 else c.toNat - 87

/-- `parseInt(chunk, 16)` on a chunk of lowercase hex digits. -/
def parseHexNat (cs : List Char) : Nat :=
  cs.foldl (fun a c => a * 16 + hexDigitVal c) 0

/-- One character of the regex class `[a-f0-9]` (the hash has already been
lowercased by `toLowerCase()`). -/
def isHexDigitLower (c : Char) : Bool :=
  ('a' ≤ c && c ≤ 'f') || ('0' ≤ c && c ≤ '9')

/-- The regex test `/^[a-f0-9]{64}$/.test(hash)` on the lowercased hash. -/
def isValidHash (hash : List Char) : Bool :=
  hash.length == 64 && hash.all isHexDigitLower

/-- `Set.add`: JavaScript set insertion, modelled on lists preserving
insertion order. -/
def setAdd (l : List Nat) (x : Nat) : List Nat :=
  if x ∈ l then l else l ++ [x]

/-- The body of the inner `while` loop of `generateShots`:

    while (skipped < targetIndex || used.has(cellIndex)) {
      if (!used.has(cellIndex)) { skipped++; }
      if (skipped < targetIndex || used.has(cellIndex)) { cellIndex++; }
    }

`fuel` bounds the number of iterations; `findCell` below supplies a fuel value
that is proved sufficient (`findCellF_spec`: the loop always exits before the
fuel runs out, because every iteration either passes a used cell or counts a
fresh one while `skipped < target`).  When the second `if` does not increment
`cellIndex`, the loop condition is false at the next test (at that point
`skipped ≥ target` and `cellIndex` is unused), so the translation returns
`cellIndex` directly there. -/
def findCellF : Nat → List Nat → Nat → Nat → Nat → Nat
  | 0, _, _, cellIndex, _ => cellIndex
  | fuel + 1, used, target, cellIndex, skipped =>
    if skipped < target ∨ cellIndex ∈ used then
      let skipped' := if cellIndex ∈ used then skipped else skipped + 1
      if skipped' < target ∨ cellIndex ∈ used then
        findCellF fuel used target (cellIndex + 1) skipped'
      else cellIndex
    else cellIndex

/-- The inner `while` loop of `generateShots`, started (as in the source) at
`cellIndex = 0`, `skipped = 0`.  The fuel `target + used.length + 1` dominates
the iteration count (proved in `findCellF_spec`). -/
def findCell (used : List Nat) (target : Nat) : Nat :=
  findCellF (target + used.length + 1) used target 0 0

/-- The 4-hex-character chunk read at string offset `hashIndex % 64`, wrapping
to the front of the 64-character hash when it would run past the end:

    hashIndex % 64 + 4 <= 64
      ? hash.substring(i, i + 4)
      : hash.substring(i) + hash.substring(0, i + 4 - 64)

(The preceding `chunk` local of the source is dead code and not modelled.) -/
def chunkAt (hash : List Char) (hashIndex : Nat) : List Char :=
  let i := hashIndex % 64
  if i + 4 ≤ 64 then (hash.drop i).take 4
  else hash.drop i ++ hash.take (i + 4 - 64)

/-- The main `while (shots.length < count)` loop of `generateShots`; `remaining`
is `count - shots.length`, which decreases by one per iteration because every
iteration pushes exactly one fresh cell.  The `toCellIndex` call of the source
throws when its argument is not in `[0,24]`; that check is kept. -/
def generateShotsGo (hash : List Char) :
    Nat → List Nat → List Nat → Nat → Except String (List Nat)
  | 0, shots, _, _ => .ok shots
  | remaining + 1, shots, used, hashIndex =>
    let value := parseHexNat (chunkAt hash hashIndex)
    let rem := 25 - used.length
    let targetIndex := value % rem
    let cellIndex := findCell used targetIndex
    if cellIndex ≤ 24 then
      generateShotsGo hash remaining (shots ++ [cellIndex]) (setAdd used cellIndex)
        (hashIndex + 4)
    else .error "Invalid cell index"

/-- `generateShots(oreHash, count)`.  `count` is modelled as `Nat` (the source
also rejects negative counts via `count < 1`).  `oreHash.toLowerCase()` is
modelled by mapping `Char.toLower` over the characters, which is the JavaScript
behaviour on the ASCII alphabet the subsequent regex accepts.  The final
`.sort((a, b) => a - b)` is ascending numeric sort. -/
def generateShots (oreHash : String) (count : Nat) : Except String (List Nat) :=
  if count < 1 ∨ count > 25 then .error "Invalid shot count"
  else
    let hash := oreHash.data.map Char.toLower
    if isValidHash hash then
      (generateShotsGo hash count [] [] 0).map
        (fun shots => shots.mergeSort (fun a b => a ≤ b))
    else .error "Invalid ORE hash: must be 64 hex characters"

/-! ## Salvo engine: `processSalvo` -/

/-- `PlayerState` (src/core/game/types.ts).  `eliminatedRound : number | null`
becomes `Option Nat`. -/
structure PlayerState where
  wallet : String
  twitterHandle : Option String
  position : List Nat
  hits : List Nat
  isEliminated : Bool
  eliminatedRound : Option Nat
deriving DecidableEq

/-- `SalvoResult` (src/core/game/salvo.ts); the `Map` of hits is an association
list in key-insertion order. -/
structure SalvoResult where
  shots : List Nat
  hits : List (String × List Nat)
  eliminations : List String
  survivors : List String
deriving DecidableEq

/-- `Map.set`: replace the value at an existing key in place, else append. -/
def mapSet (m : List (String × List Nat)) (k : String) (v : List Nat) :
    List (String × List Nat) :=
  if m.any (fun kv => kv.1 = k) then
    m.map (fun kv => if kv.1 = k then (k, v) else kv)
  else m ++ [(k, v)]

/-- The new hits of one player: the cells of `player.position` that are in the
shot set but not already in `player.hits` (iteration order of the source is
position order, i.e. `filter`). -/
def newHitsOf (shots : List Nat) (p : PlayerState) : List Nat :=
  p.position.filter (fun cell => decide (cell ∈ shots ∧ cell ∉ p.hits))

/-- The `for (const player of players)` loop of `processSalvo`, carrying the
three accumulators in order. -/
def processLoop (shots : List Nat) :
    List PlayerState → List (String × List Nat) → List String → List String →
      List (String × List Nat) × List String × List String
  | [], hits, eliminations, survivors => (hits, eliminations, survivors)
  | p :: rest, hits, eliminations, survivors =>
    if p.isEliminated then processLoop shots rest hits eliminations survivors
    else
      let newHits := newHitsOf shots p
      let hits' := if newHits.length > 0 then mapSet hits p.wallet newHits else hits
      let totalHits := p.hits.length + newHits.length
      if totalHits ≥ p.position.length then
        processLoop shots rest hits' (eliminations ++ [p.wallet]) survivors
      else
        processLoop shots rest hits' eliminations (survivors ++ [p.wallet])

/-- `processSalvo({oreHash, shotCount, players})`. -/
def processSalvo (oreHash : String) (shotCount : Nat) (players : List PlayerState) :
    Except String SalvoResult :=
  (generateShots oreHash shotCount).map fun shots =>
    let acc := processLoop shots players [] [] []
    { shots := shots, hits := acc.1, eliminations := acc.2.1, survivors := acc.2.2 }

/-! ## Placement engine (src/core/game/placement.ts)

Raw cell values arrive as JavaScript numbers; in the code paths modelled here
they are integers (the `Number.isInteger` test of the source is identically
true on the `Int` model, which still covers the negative and too-large values
the range check rejects). -/

/-- `Orientation`. -/
inductive Orientation where
  | horizontal
  | vertical
  | single
deriving DecidableEq

/-- `ValidatedPlacement`. -/
structure ValidatedPlacement where
  cells : List Int
  orientation : Orientation
deriving DecidableEq

/-- The `sorted.every(...)` horizontal test of `determineOrientation`: each
cell after the first is in the same row as its predecessor (`Math.floor` is
floor division) and exactly one greater. -/
def isHorizontalRun : List Int → Bool
  | [] => true
  | [_] => true
  | a :: b :: rest =>
    decide (b.fdiv 5 = a.fdiv 5) && decide (b = a + 1) && isHorizontalRun (b :: rest)

/-- The `sorted.every(...)` vertical test of `determineOrientation`: each cell
after the first is exactly `GRID_SIZE = 5` greater than its predecessor. -/
def isVerticalRun : List Int → Bool
  | [] => true
  | [_] => true
  | a :: b :: rest => decide (b = a + 5) && isVerticalRun (b :: rest)

/-- `determineOrientation(sorted)`: horizontal is checked first. -/
def determineOrientation (sorted : List Int) : Option Orientation :=
  if isHorizontalRun sorted then some .horizontal
  else if isVerticalRun sorted then some .vertical
  else none

/-- `validatePlacement(cells, shipSize)`.  The `new Set(validated).size !==
validated.length` duplicate test is the negation of `Nodup`. -/
def validatePlacement (cells : List Int) (shipSize : Nat) :
    Except String ValidatedPlacement :=
  if cells.length ≠ shipSize then .error "wrong number of cells"
  else if ¬ (∀ c ∈ cells, 0 ≤ c ∧ c < 25) then .error "Invalid cell index"
  else if ¬ cells.Nodup then .error "Duplicate cells in placement"
  else if shipSize = 1 then .ok { cells := cells, orientation := .single }
  else
    let sorted := cells.mergeSort (fun a b => a ≤ b)
    match determineOrientation sorted with
    | some o => .ok { cells := sorted, orientation := o }
    | none => .error "Ship cells must be contiguous horizontally or vertically"

/-- `getCellLabel(cell)` for a valid cell index in `[0,24]`: letter
`String.fromCharCode(65 + row)` and the single decimal digit of `col + 1`. -/
def getCellLabel (cell : Nat) : String :=
  String.mk [Char.ofNat (65 + cell / 5), Char.ofNat (48 + (cell % 5 + 1))]

/-- The regex match of `parseCellLabel` on the uppercased characters: the
whole string must be exactly one letter `A`-`E` followed by one digit
`1`-`5`; `match[1].charCodeAt(0) - 65` is the row and `parseInt(match[2])-1`
the column.  The final `toCellIndex` bound check of the source is kept. -/
def parseCellChars : List Char → Except String Nat
  | [l, d] =>
    if 'A' ≤ l ∧ l ≤ 'E' ∧ '1' ≤ d ∧ d ≤ '5' then
      let row := l.toNat - 65
      let col := (d.toNat - 48) - 1
      let n := row * 5 + col
      if n ≤ 24 then .ok n else .error "Invalid cell index"
    else .error "Invalid cell label"
  | _ => .error "Invalid cell label"

/-- `parseCellLabel(label)`.  `label.toUpperCase()` is modelled by mapping
`Char.toUpper` (the JavaScript behaviour on the ASCII range relevant to the
`[A-E][1-5]` pattern). -/
def parseCellLabel (label : String) : Except String Nat :=
  parseCellChars (label.data.map Char.toUpper)

/-! ## Lifecycle state machine (src/core/game/state-machine.ts) -/

/-- `GameStatus`. -/
inductive GameStatus where
  | waiting
  | active
  | repositioning
  | complete
  | cancelled
deriving DecidableEq

/-- `CancelReason`. -/
inductive CancelReason where
  | insufficient_players
  | admin_cancelled
deriving DecidableEq

/-- `GameState`; `deadline : Date | null` is an optional millisecond
timestamp. -/
structure GameState where
  status : GameStatus
  round : Nat
  deadline : Option Nat
  winners : List String
  cancelReason : Option CancelReason
deriving DecidableEq

/-- `GameConfig`. -/
structure GameConfig where
  entryFeeLamports : Nat
  maxPlayers : Nat
  shipSize : Nat
  shotsPerSalvo : Nat
  fillDeadlineMinutes : Nat
  repositionWindowMinutes : Nat
  maxRounds : Nat
deriving DecidableEq

/-- `GameEvent` (src/core/game/types.ts). -/
inductive GameEvent where
  | PLAYER_JOINED (wallet : String) (position : List Nat)
  | DEADLINE_REACHED
  | MAX_PLAYERS_REACHED
  | SALVO_COMPLETE (oreHash : String) (survivors : List String)
  | REPOSITION_SUBMITTED (wallet : String) (position : List Nat)
  | REPOSITION_TIMEOUT
  | ADMIN_CANCEL
  | ADMIN_FORCE_START
deriving DecidableEq

/-- `SideEffect` (src/core/game/types.ts); the optional `wallets` field of
`NOTIFY_PLAYERS` is `none` when absent. -/
inductive SideEffect where
  | NOTIFY_PLAYERS (message : String) (wallets : Option (List String))
  | PROCESS_PAYOUTS (winners : List String)
  | PROCESS_REFUNDS (wallets : List String)
  | SCHEDULE_TIMEOUT (durationMs : Nat) (event : GameEvent)
  | POST_TWEET (content : String)
  | TRIGGER_SALVO
deriving DecidableEq

/-- `TransitionResult`. -/
structure TransitionResult where
  newState : GameState
  sideEffects : List SideEffect
deriving DecidableEq

/-- `InvalidTransitionError` carries the current status and the offending
event. -/
structure InvalidTransitionError where
  currentStatus : GameStatus
  event : GameEvent
deriving DecidableEq

/-- `StateMachineContext`. -/
structure StateMachineContext where
  config : GameConfig
  players : List PlayerState
deriving DecidableEq

/-- `handleWaiting(state, event, config, players)`. -/
def handleWaiting (state : GameState) (event : GameEvent) (config : GameConfig)
    (players : List PlayerState) :
    Except InvalidTransitionError TransitionResult :=
  match event with
  | .PLAYER_JOINED _ _ =>
    let sideEffects : List SideEffect :=
      [.NOTIFY_PLAYERS
        ("Player joined! " ++ toString (players.length + 1) ++ "/" ++
          toString config.maxPlayers) none]
    if players.length + 1 ≥ config.maxPlayers then
      .ok
        { newState :=
            { status := .active, round := 1, deadline := none, winners := [],
              cancelReason := none },
          sideEffects := sideEffects ++
            [.NOTIFY_PLAYERS "Game is full! Starting..." none,
             .POST_TWEET "Game starting! All players joined.",
             .TRIGGER_SALVO] }
    else .ok { newState := state, sideEffects := sideEffects }
  | .MAX_PLAYERS_REACHED =>
    .ok
      { newState :=
          { status := .active, round := 1, deadline := none, winners := [],
            cancelReason := none },
        sideEffects :=
          [.NOTIFY_PLAYERS "Game is full! Starting..." none,
           .POST_TWEET "Game starting! All players joined.",
           .TRIGGER_SALVO] }
  | .DEADLINE_REACHED =>
    let activePlayers := players.filter (fun p => !p.isEliminated)
    if activePlayers.length < 2 then
      .ok
        { newState :=
            { status := .cancelled, round := 0, deadline := none, winners := [],
              cancelReason := some .insufficient_players },
          sideEffects :=
            [.PROCESS_REFUNDS (players.map (fun p => p.wallet)),
             .NOTIFY_PLAYERS
               "Game cancelled - not enough players. Refunds processing." none] }
    else
      .ok
        { newState :=
            { status := .active, round := 1, deadline := none, winners := [],
              cancelReason := none },
          sideEffects :=
            [.NOTIFY_PLAYERS
               ("Game starting with " ++ toString activePlayers.length ++
                 " players!") none,
             .POST_TWEET
               ("Game starting with " ++ toString activePlayers.length ++
                 " players!"),
             .TRIGGER_SALVO] }
  | .ADMIN_FORCE_START =>
    let activePlayers := players.filter (fun p => !p.isEliminated)
    if activePlayers.length < 2 then
      .error { currentStatus := state.status, event := event }
    else
      .ok
        { newState :=
            { status := .active, round := 1, deadline := none, winners := [],
              cancelReason := none },
          sideEffects :=
            [.NOTIFY_PLAYERS
               ("Admin started game with " ++ toString activePlayers.length ++
                 " players!") none,
             .TRIGGER_SALVO] }
  | .ADMIN_CANCEL =>
    .ok
      { newState :=
          { status := .cancelled, round := 0, deadline := none, winners := [],
            cancelReason := some .admin_cancelled },
        sideEffects :=
          [.PROCESS_REFUNDS (players.map (fun p => p.wallet)),
           .NOTIFY_PLAYERS "Game cancelled by admin. Refunds processing." none] }
  | _ => .error { currentStatus := state.status, event := event }

/-- `handleActive(state, event, config, players)`; `now` is the value of the
single `Date.now()` call in the repositioning branch. -/
def handleActive (state : GameState) (event : GameEvent) (config : GameConfig)
    (players : List PlayerState) (now : Nat) :
    Except InvalidTransitionError TransitionResult :=
  match event with
  | .SALVO_COMPLETE _ survivors =>
    if survivors.length = 0 then
      let lastRoundSurvivors :=
        (players.filter
            (fun p => p.eliminatedRound = some state.round ∨ ¬p.isEliminated)).map
          (fun p => p.wallet)
      .ok
        { newState :=
            { status := .complete, round := state.round, deadline := none,
              winners := lastRoundSurvivors, cancelReason := none },
          sideEffects :=
            [.PROCESS_PAYOUTS lastRoundSurvivors,
             .NOTIFY_PLAYERS
               ("Game over! All ships sunk in final salvo. Pot split among " ++
                 toString lastRoundSurvivors.length ++ " players.") none,
             .POST_TWEET
               ("Game complete! Pot split among " ++
                 toString lastRoundSurvivors.length ++ " survivors.")] }
    else if survivors.length = 1 then
      .ok
        { newState :=
            { status := .complete, round := state.round, deadline := none,
              winners := survivors, cancelReason := none },
          sideEffects :=
            [.PROCESS_PAYOUTS survivors,
             .NOTIFY_PLAYERS
               ("Game over! Winner: " ++ survivors.headD "") none,
             .POST_TWEET "We have a winner! Congratulations!"] }
    else if state.round ≥ config.maxRounds then
      .ok
        { newState :=
            { status := .complete, round := state.round, deadline := none,
              winners := survivors, cancelReason := none },
          sideEffects :=
            [.PROCESS_PAYOUTS survivors,
             .NOTIFY_PLAYERS
               ("Max rounds reached! Pot split among " ++
                 toString survivors.length ++ " survivors.") none,
             .POST_TWEET
               ("Game complete after " ++ toString config.maxRounds ++
                 " rounds! " ++ toString survivors.length ++
                 " survivors split the pot.")] }
    else
      let repositionDeadline := now + config.repositionWindowMinutes * 60 * 1000
      .ok
        { newState :=
            { status := .repositioning, round := state.round,
              deadline := some repositionDeadline, winners := [],
              cancelReason := none },
          sideEffects :=
            [.NOTIFY_PLAYERS
               ("Round " ++ toString state.round ++ " complete! " ++
                 toString survivors.length ++
                 " survivors. Reposition your ships!") (some survivors),
             .SCHEDULE_TIMEOUT (config.repositionWindowMinutes * 60 * 1000)
               .REPOSITION_TIMEOUT] }
  | _ => .error { currentStatus := state.status, event := event }

/-- `handleRepositioning(state, event, config, players)`. -/
def handleRepositioning (state : GameState) (event : GameEvent)
    (config : GameConfig) (players : List PlayerState) :
    Except InvalidTransitionError TransitionResult :=
  match event with
  | .REPOSITION_SUBMITTED wallet _ =>
    let activePlayers := players.filter (fun p => !p.isEliminated)
    let allRepositioned :=
      activePlayers.all (fun p => p.wallet = wallet ∨ p.position.length > 0)
    if allRepositioned then
      .ok
        { newState :=
            { status := .active, round := state.round + 1, deadline := none,
              winners := [], cancelReason := none },
          sideEffects :=
            [.NOTIFY_PLAYERS
               ("All players repositioned! Round " ++
                 toString (state.round + 1) ++ " starting...") none,
             .TRIGGER_SALVO] }
    else
      .ok
        { newState := state,
          sideEffects :=
            [.NOTIFY_PLAYERS (wallet ++ " has repositioned.") none] }
  | .REPOSITION_TIMEOUT =>
    .ok
      { newState :=
          { status := .active, round := state.round + 1, deadline := none,
            winners := [], cancelReason := none },
        sideEffects :=
          [.NOTIFY_PLAYERS
             ("Repositioning time up! Round " ++ toString (state.round + 1) ++
               " starting...") none,
           .TRIGGER_SALVO] }
  | .ADMIN_CANCEL =>
    .ok
      { newState :=
          { status := .cancelled, round := state.round, deadline := none,
            winners := [], cancelReason := some .admin_cancelled },
        sideEffects :=
          [.PROCESS_REFUNDS (players.map (fun p => p.wallet)),
           .NOTIFY_PLAYERS "Game cancelled by admin. Refunds processing." none] }
  | _ => .error { currentStatus := state.status, event := event }

/-- `transition(state, event, context)`: the pure reducer.  The wall-clock
reading `Date.now()` that the source performs inside the
`active + SALVO_COMPLETE` repositioning branch is passed in explicitly as
`now`. -/
def transition (state : GameState) (event : GameEvent)
    (context : StateMachineContext) (now : Nat) :
    Except InvalidTransitionError TransitionResult :=
  match state.status with
  | .waiting => handleWaiting state event context.config context.players
  | .active => handleActive state event context.config context.players now
  | .repositioning => handleRepositioning state event context.config context.players
  | .complete => .error { currentStatus := state.status, event := event }
  | .cancelled => .error { currentStatus := state.status, event := event }

/-- `createInitialState()`. -/
def createInitialState : GameState :=
  { status := .waiting, round := 0, deadline := none, winners := [],
    cancelReason := none }

/-! ## Specification devices

Definitions used only to state properties (not translations of source
functions). -/

deriving instance DecidableEq for Except

/-- Number of cells below `n` that are not in `used` (the count the inner
loop of `generateShots` accumulates in `skipped`). -/
def countBelow (used : List Nat) (n : Nat) : Nat :=
  ((List.range n).filter (fun x => decide (x ∉ used))).length

/-- Modelled from the spec (claim C2): the draw with residue `r` "selects the
(r+1)-th smallest not-yet-selected cell index", i.e. the element at zero-based
index `r` of the ascending list of unselected cells. -/
def specSelectsCell (used : List Nat) (r : Nat) : Option Nat :=
  ((List.range 25).filter (fun x => decide (x ∉ used)))[r]?

/-- Forget the `deadline` field of a transition result (used to state which
part of `transition`'s output is independent of the wall clock). -/
def eraseDeadline (r : Except InvalidTransitionError TransitionResult) :
    Except InvalidTransitionError TransitionResult :=
  r.map fun tr =>
    { tr with newState := { tr.newState with deadline := none } }

/-! ## Generic helper lemmas -/

/-- Characters compare by code point. -/
theorem char_le_iff (a b : Char) : a ≤ b ↔ a.toNat ≤ b.toNat := by
  rw [Char.le_def, UInt32.le_def, BitVec.le_def]
  exact Iff.rfl

/-- `Char.ofNat` round-trips on valid (below-surrogate) code points. -/
theorem char_toNat_ofNat {n : Nat} (h : n < 55296) : (Char.ofNat n).toNat = n := by
  rw [Char.ofNat, dif_pos (Or.inl h : Nat.isValidChar n)]
  rfl

/-- `mergeSort` with the ascending comparison agrees with `insertionSort`
(whose recursion is structural, so concrete values reduce definitionally). -/
theorem generateShots_eq_insertionSort (oreHash : String) (count : Nat) :
    generateShots oreHash count =
      (if count < 1 ∨ count > 25 then Except.error "Invalid shot count"
       else
         let hash := oreHash.data.map Char.toLower
         if isValidHash hash then
           (generateShotsGo hash count [] [] 0).map
             (fun shots => List.insertionSort (· ≤ ·) shots)
         else Except.error "Invalid ORE hash: must be 64 hex characters") := by
  unfold generateShots
  have h : ∀ shots : List Nat, shots.mergeSort (fun a b => a ≤ b) =
      List.insertionSort (· ≤ ·) shots := fun shots =>
    List.mergeSort_eq_insertionSort (· ≤ ·) shots
  split_ifs <;> simp only [h]

/-! ## The inner cell-selection loop of `generateShots` -/

/-- Scanning one cell further counts it in `countBelow` exactly when it is
unused. -/
theorem countBelow_succ (used : List Nat) (c : Nat) :
    countBelow used (c + 1) = countBelow used c + (if c ∈ used then 0 else 1) := by
  unfold countBelow
  rw [List.range_succ, List.filter_append, List.length_append]
  by_cases h : c ∈ used <;> simp [h]

/-- `countBelow` is monotone in the bound. -/
theorem countBelow_mono (used : List Nat) {a b : Nat} (h : a ≤ b) :
    countBelow used a ≤ countBelow used b :=
  List.Sublist.length_le (List.Sublist.filter _ (List.range_sublist.2 h))

/-- Passing a used cell strictly shrinks the tail of used cells still ahead
of the scan (the termination measure of the inner loop). -/
theorem filter_ge_succ_length_lt {used : List Nat} {c : Nat} (h : c ∈ used) :
    (used.filter (fun x => decide (c + 1 ≤ x))).length <
      (used.filter (fun x => decide (c ≤ x))).length := by
  induction used with
  | nil => cases h
  | cons a l ih =>
    have hmono : (l.filter (fun x => decide (c + 1 ≤ x))).length ≤
        (l.filter (fun x => decide (c ≤ x))).length :=
      List.Sublist.length_le
        (List.monotone_filter_right l
          (fun x hx => decide_eq_true (Nat.le_of_succ_le (of_decide_eq_true hx))))
    rcases List.mem_cons.1 h with heq | hl
    · subst heq
      rw [List.filter_cons, List.filter_cons]
      have h1 : (decide (c + 1 ≤ c)) = false := by simp
      have h2 : (decide (c ≤ c)) = true := by simp
      rw [h1, h2]
      simpa using Nat.lt_succ_of_le hmono
    · rw [List.filter_cons, List.filter_cons]
      by_cases hc1 : c + 1 ≤ a
      · have hc : c ≤ a := Nat.le_of_succ_le hc1
        simp only [decide_eq_true hc1, decide_eq_true hc, List.length_cons]
        exact Nat.succ_lt_succ (ih hl)
      · by_cases hc : c ≤ a
        · simp only [decide_eq_false hc1, decide_eq_true hc, List.length_cons]
          exact Nat.lt_succ_of_le hmono
        · simp only [decide_eq_false hc1, decide_eq_false hc]
          exact ih hl

/-- Invariant characterization of the inner `while` loop: started anywhere on
its real trajectory (where `skipped` counts the unused cells below
`cellIndex`) with sufficient fuel, it stops on an unused cell, and the number
of unused cells below the result is `max skipped (target - 1)`.  In
particular the fuel bound shows the source loop terminates. -/
theorem findCellF_spec (used : List Nat) (target : Nat) :
    ∀ (fuel : Nat) {cellIndex skipped : Nat},
      skipped = countBelow used cellIndex →
      target - skipped + (used.filter (fun x => decide (cellIndex ≤ x))).length + 1 ≤
        fuel →
      findCellF fuel used target cellIndex skipped ∉ used ∧
        countBelow used (findCellF fuel used target cellIndex skipped) =
          max skipped (target - 1) := by
  intro fuel
  induction fuel with
  | zero => intro c s _ hfuel; omega
  | succ fuel ih =>
    intro c s hs hfuel
    rw [findCellF]
    by_cases hmem : c ∈ used
    · have hguard : s < target ∨ c ∈ used := Or.inr hmem
      have hsucc : s = countBelow used (c + 1) := by
        rw [countBelow_succ, if_pos hmem, hs]
        omega
      have hflt := filter_ge_succ_length_lt hmem
      simp only [if_pos hguard, if_pos hmem, if_pos (Or.inr hmem : s < target ∨ c ∈ used)]
      exact ih hsucc (by omega)
    · by_cases hlt : s < target
      · have hguard : s < target ∨ c ∈ used := Or.inl hlt
        have hsucc : countBelow used (c + 1) = s + 1 := by
          rw [countBelow_succ, if_neg hmem, hs]
        have hfle : (used.filter (fun x => decide (c + 1 ≤ x))).length ≤
            (used.filter (fun x => decide (c ≤ x))).length :=
          List.Sublist.length_le
            (List.monotone_filter_right used
              (fun x hx => decide_eq_true (Nat.le_of_succ_le (of_decide_eq_true hx))))
        by_cases hlt2 : s + 1 < target
        · simp only [if_pos hguard, if_neg hmem,
            if_pos (Or.inl hlt2 : s + 1 < target ∨ c ∈ used)]
          rcases ih hsucc.symm (by omega) with ⟨hnotmem, hcount⟩
          exact ⟨hnotmem, by rw [hcount]; omega⟩
        · simp only [if_pos hguard, if_neg hmem,
            if_neg (by simp [hlt2, hmem] : ¬(s + 1 < target ∨ c ∈ used))]
          exact ⟨hmem, by rw [← hs]; omega⟩
      · simp only [if_neg (by simp [hlt, hmem] : ¬(s < target ∨ c ∈ used))]
        exact ⟨hmem, by rw [← hs]; omega⟩

/-- The inner loop, as invoked by `generateShots` (started at cell 0 with no
cells skipped), always returns an unused cell with exactly `target - 1`
(truncated subtraction) unused cells below it. -/
theorem findCell_spec (used : List Nat) (target : Nat) :
    findCell used target ∉ used ∧
      countBelow used (findCell used target) = target - 1 := by
  have hfilter : (used.filter (fun x => decide (0 ≤ x))).length = used.length := by
    rw [List.filter_eq_self.2 (fun x _ => by simp)]
  have h := @findCellF_spec used target (target + used.length + 1) 0 0
    (by simp [countBelow]) (by rw [hfilter]; omega)
  rw [findCell]
  exact ⟨h.1, by rw [h.2]; omega⟩

/-- An unused cell is determined by the number of unused cells below it. -/
theorem countBelow_inj {used : List Nat} {r r' : Nat} (h : r ∉ used)
    (h' : r' ∉ used) (he : countBelow used r = countBelow used r') : r = r' := by
  rcases Nat.lt_trichotomy r r' with hlt | heq | hlt
  · have h1 : countBelow used r + 1 ≤ countBelow used r' := by
      have := countBelow_mono used (Nat.succ_le_of_lt hlt)
      rw [countBelow_succ, if_neg h] at this
      omega
    omega
  · exact heq
  · have h1 : countBelow used r' + 1 ≤ countBelow used r := by
      have := countBelow_mono used (Nat.succ_le_of_lt hlt)
      rw [countBelow_succ, if_neg h'] at this
      omega
    omega

/-- **C2 (counterexample).**  The claim says residue `r = 1` selects the
second-smallest unselected cell.  On the first draw with no cells used, the
spec-modelled selection at residue 1 is cell 1, but the code's loop returns
cell 0 (the smallest), as witnessed end-to-end by the seed whose first chunk
has value 1 producing the shot list `[0]`. -/
theorem claim_C2_counterexample :
    specSelectsCell [] 1 = some 1 ∧ findCell [] 1 = 0 ∧
      generateShots
        "0001000000000000000000000000000000000000000000000000000000000000" 1 =
        .ok [0] := by
  refine ⟨by decide, by decide, ?_⟩
  rw [generateShots_eq_insertionSort]
  decide

/-- **C2 (amended).**  In `generateShots`, every draw with residue
`r = value % remaining` selects the unique not-yet-used cell index that has
exactly `r - 1` (truncated subtraction, so `max (r-1) 0`) unused cells below
it: the smallest unused cell for `r ∈ {0, 1}`, and the `r`-th smallest unused
cell (zero-based index `r - 1`) for `r ≥ 1`.  Residues 0 and 1 therefore
coincide, and the largest remaining cell is not selectable at that draw. -/
theorem claim_C2 (used : List Nat) (target : Nat) :
    findCell used target ∉ used ∧
      countBelow used (findCell used target) = target - 1 ∧
      ∀ r, r ∉ used → countBelow used r = target - 1 → r = findCell used target := by
  obtain ⟨h1, h2⟩ := findCell_spec used target
  exact ⟨h1, h2, fun r hr hc => countBelow_inj hr h1 (by rw [hc, h2])⟩

/-- Witness for C2: with cell 0 used and residue 2 the loop selects cell 2,
the unique unused cell with exactly one unused cell below it. -/
theorem claim_C2_witness :
    findCell [0] 2 ∉ [0] ∧ countBelow [0] (findCell [0] 2) = 1 ∧
      2 = findCell [0] 2 := by
  have h := claim_C2 [0] 2
  exact ⟨h.1, h.2.1, h.2.2 2 (by decide) (by decide)⟩

/-! ## `generateShots`: shape of the result (claim C3) -/

/-- With `used` duplicate-free and inside the board, the unused count of the
whole board is `25 - used.length`. -/
theorem countBelow_25 {used : List Nat} (hnd : used.Nodup)
    (hlt : ∀ x ∈ used, x < 25) : countBelow used 25 = 25 - used.length := by
  have hsplit :=
    (List.range 25).length_eq_length_filter_add (fun x => decide (x ∈ used))
  have hcongr : (List.range 25).filter (fun x => !decide (x ∈ used)) =
      (List.range 25).filter (fun x => decide (x ∉ used)) :=
    List.filter_congr (fun x _ => by simp)
  have hnodup : ((List.range 25).filter (fun x => decide (x ∈ used))).Nodup :=
    (List.nodup_range 25).filter _
  have hfin : ((List.range 25).filter (fun x => decide (x ∈ used))).toFinset =
      used.toFinset := by
    ext a
    simp only [List.toFinset_filter, decide_eq_true_eq, List.mem_toFinset,
      Finset.mem_filter, List.mem_toFinset, List.mem_range]
    exact ⟨fun h => h.2, fun h => ⟨hlt a h, h⟩⟩
  have hlen : ((List.range 25).filter (fun x => decide (x ∈ used))).length =
      used.length := by
    rw [← List.toFinset_card_of_nodup hnodup, hfin, List.toFinset_card_of_nodup hnd]
  rw [countBelow, ← hcongr]
  rw [List.length_range] at hsplit
  omega

/-- The main loop of `generateShots` succeeds and adds `remaining` fresh
in-range cells whenever the invariant (`shots` and `used` track the same
duplicate-free set of board cells, with room for `remaining` more) holds. -/
theorem generateShotsGo_spec (hash : List Char) :
    ∀ (remaining : Nat) (shots used : List Nat) (hashIndex : Nat),
      shots = used → used.Nodup → (∀ x ∈ used, x < 25) →
      used.length + remaining ≤ 25 →
      ∃ l, generateShotsGo hash remaining shots used hashIndex = .ok l ∧
        l.length = shots.length + remaining ∧ l.Nodup ∧ ∀ x ∈ l, x < 25 := by
  intro remaining
  induction remaining with
  | zero =>
    intro shots used hashIndex hsu hnd hlt _
    exact ⟨shots, rfl, by omega, hsu ▸ hnd, hsu ▸ hlt⟩
  | succ n ih =>
    intro shots used hashIndex hsu hnd hlt hlen
    rw [generateShotsGo]
    have hrem : 0 < 25 - used.length := by omega
    set target := parseHexNat (chunkAt hash hashIndex) % (25 - used.length) with htarget
    have htlt : target < 25 - used.length := Nat.mod_lt _ hrem
    obtain ⟨hnotmem, hcount⟩ := findCell_spec used target
    have h25 : countBelow used 25 = 25 - used.length := countBelow_25 hnd hlt
    have hcell : findCell used target < 25 := by
      by_contra hge
      have := countBelow_mono used (Nat.le_of_not_lt hge)
      omega
    rw [if_pos (by omega : findCell used target ≤ 24)]
    have hadd : setAdd used (findCell used target) = used ++ [findCell used target] := by
      rw [setAdd, if_neg hnotmem]
    rw [hadd]
    obtain ⟨l, hgo, hl, hlnd, hllt⟩ :=
      ih (shots ++ [findCell used target]) (used ++ [findCell used target])
        (hashIndex + 4) (by rw [hsu])
        (by simp [List.nodup_append, hnd, hnotmem])
        (by
          intro x hx
          rcases List.mem_append.1 hx with hx | hx
          · exact hlt x hx
          · rw [List.mem_singleton.1 hx]; exact hcell)
        (by simp; omega)
    refine ⟨l, hgo, by simp at hl; omega, hlnd, hllt⟩

/-- JavaScript `toLowerCase` on a character matched case-insensitively by the
hex class lands in the lowercase hex class `[a-f0-9]`. -/
theorem isHexDigitLower_toLower {c : Char}
    (h : ('0' ≤ c ∧ c ≤ '9') ∨ ('a' ≤ c ∧ c ≤ 'f') ∨ ('A' ≤ c ∧ c ≤ 'F')) :
    isHexDigitLower c.toLower = true := by
  simp only [char_le_iff] at h
  obtain ⟨e0, e9, ea, ef, eA, eF⟩ :
      ('0' : Char).toNat = 48 ∧ ('9' : Char).toNat = 57 ∧
        ('a' : Char).toNat = 97 ∧ ('f' : Char).toNat = 102 ∧
        ('A' : Char).toNat = 65 ∧ ('F' : Char).toNat = 70 := by decide
  rw [e0, e9, ea, ef, eA, eF] at h
  have htl : c.toLower =
      if 65 ≤ c.toNat ∧ c.toNat ≤ 90 then Char.ofNat (c.toNat + 32) else c := rfl
  rw [htl]
  by_cases hc : 65 ≤ c.toNat ∧ c.toNat ≤ 90
  · rw [if_pos hc]
    have ht : (Char.ofNat (c.toNat + 32)).toNat = c.toNat + 32 :=
      char_toNat_ofNat (by omega)
    simp only [isHexDigitLower, Bool.or_eq_true, Bool.and_eq_true,
      decide_eq_true_eq, char_le_iff, ht, e0, e9, ea, ef]
    omega
  · rw [if_neg hc]
    simp only [isHexDigitLower, Bool.or_eq_true, Bool.and_eq_true,
      decide_eq_true_eq, char_le_iff, e0, e9, ea, ef]
    omega

/-- **C3.**  For every seed of 64 case-insensitive hex characters and every
count `1 ≤ n ≤ 25`, `generateShots` succeeds with exactly `n` pairwise
distinct cells in `[0,24]`, sorted ascending.  (Determinism on equal
arguments holds because the embedding is a pure function of `(seed, n)`;
the source's only other input, `Math.random`, is confined to
`generateMockOreHash`.) -/
theorem claim_C3 (oreHash : String) (count : Nat)
    (hseed : oreHash.data.length = 64 ∧ ∀ c ∈ oreHash.data,
      ('0' ≤ c ∧ c ≤ '9') ∨ ('a' ≤ c ∧ c ≤ 'f') ∨ ('A' ≤ c ∧ c ≤ 'F'))
    (h1 : 1 ≤ count) (h2 : count ≤ 25) :
    ∃ shots, generateShots oreHash count = .ok shots ∧
      shots.length = count ∧ shots.Nodup ∧ (∀ x ∈ shots, x ≤ 24) ∧
      shots.Sorted (· ≤ ·) := by
  have hvalid : isValidHash (oreHash.data.map Char.toLower) = true := by
    simp only [isValidHash, Bool.and_eq_true, beq_iff_eq, List.length_map,
      List.all_eq_true]
    refine ⟨hseed.1, fun x hx => ?_⟩
    obtain ⟨c, hc, rfl⟩ := List.mem_map.1 hx
    exact isHexDigitLower_toLower (hseed.2 c hc)
  obtain ⟨l, hgo, hlen, hnd, hlt⟩ :=
    generateShotsGo_spec (oreHash.data.map Char.toLower) count [] [] 0 rfl
      List.nodup_nil (by simp) (by simp; omega)
  refine ⟨l.mergeSort (fun a b => a ≤ b), ?_, ?_, ?_, ?_, ?_⟩
  · rw [generateShots, if_neg (by omega : ¬(count < 1 ∨ count > 25))]
    simp only [hvalid, if_pos, hgo, Except.map]
  · rw [(List.mergeSort_perm l _).length_eq, hlen]
    simp
  · exact ((List.mergeSort_perm l _).nodup_iff).2 hnd
  · intro x hx
    have := hlt x (List.mem_mergeSort.1 hx)
    omega
  · exact List.sorted_mergeSort' l

/-- Witness for C3 at the all-`a` seed with `n = 5`. -/
theorem claim_C3_witness :
    ∃ shots,
      generateShots "aaaaaaaaaaaaaaaaaaaaaaaaaaaaaaaaaaaaaaaaaaaaaaaaaaaaaaaaaaaaaaaa" 5 =
          .ok shots ∧
        shots.length = 5 ∧ shots.Nodup ∧ (∀ x ∈ shots, x ≤ 24) ∧
        shots.Sorted (· ≤ ·) :=
  claim_C3 "aaaaaaaaaaaaaaaaaaaaaaaaaaaaaaaaaaaaaaaaaaaaaaaaaaaaaaaaaaaaaaaa" 5
    (by refine ⟨by decide, ?_⟩; decide) (by decide) (by decide)

/-! ## `processSalvo`: per-player bookkeeping (claims C7, C10) -/

/-- Closed form of the eliminations accumulator: the loop appends exactly the
wallets of the active players whose cumulative hits cover their position. -/
theorem processLoop_elims (shots : List Nat) :
    ∀ (players : List PlayerState) (hits : List (String × List Nat))
      (elims survs : List String),
      (processLoop shots players hits elims survs).2.1 =
        elims ++
          (players.filter (fun p => !p.isEliminated &&
            decide (p.position.length ≤ p.hits.length + (newHitsOf shots p).length))).map
            (fun p => p.wallet) := by
  intro players
  induction players with
  | nil => intro hits elims survs; simp [processLoop]
  | cons p rest ih =>
    intro hits elims survs
    rw [processLoop]
    simp only []
    by_cases helim : p.isEliminated
    · rw [if_pos helim]
      rw [ih]
      simp [List.filter_cons, helim]
    · rw [if_neg helim]
      by_cases htot : p.hits.length + (newHitsOf shots p).length ≥ p.position.length
      · have hcond : (!p.isEliminated &&
            decide (p.position.length ≤ p.hits.length + (newHitsOf shots p).length)) =
            true := by
          simp only [Bool.and_eq_true, Bool.not_eq_true', decide_eq_true_eq]
          exact ⟨by simp [helim], by omega⟩
        rw [if_pos htot, ih]
        simp [List.filter_cons, hcond]
      · have hcond : (!p.isEliminated &&
            decide (p.position.length ≤ p.hits.length + (newHitsOf shots p).length)) =
            false := by
          have : ¬(p.position.length ≤ p.hits.length + (newHitsOf shots p).length) := by
            omega
          simp [this]
        rw [if_neg htot, ih]
        simp [List.filter_cons, hcond]

/-- Closed form of the survivors accumulator. -/
theorem processLoop_survs (shots : List Nat) :
    ∀ (players : List PlayerState) (hits : List (String × List Nat))
      (elims survs : List String),
      (processLoop shots players hits elims survs).2.2 =
        survs ++
          (players.filter (fun p => !p.isEliminated &&
            decide (p.hits.length + (newHitsOf shots p).length < p.position.length))).map
            (fun p => p.wallet) := by
  intro players
  induction players with
  | nil => intro hits elims survs; simp [processLoop]
  | cons p rest ih =>
    intro hits elims survs
    rw [processLoop]
    simp only []
    by_cases helim : p.isEliminated
    · rw [if_pos helim]
      rw [ih]
      simp [List.filter_cons, helim]
    · rw [if_neg helim]
      by_cases htot : p.hits.length + (newHitsOf shots p).length ≥ p.position.length
      · have hcond : (!p.isEliminated &&
            decide (p.hits.length + (newHitsOf shots p).length < p.position.length)) =
            false := by
          have : ¬(p.hits.length + (newHitsOf shots p).length < p.position.length) := by
            omega
          simp [this]
        rw [if_pos htot, ih]
        simp [List.filter_cons, hcond]
      · have hcond : (!p.isEliminated &&
            decide (p.hits.length + (newHitsOf shots p).length < p.position.length)) =
            true := by
          simp only [Bool.and_eq_true, Bool.not_eq_true', decide_eq_true_eq]
          exact ⟨by simp [helim], by omega⟩
        rw [if_neg htot, ih]
        simp [List.filter_cons, hcond]

/-- Closed form of the hits map: when player wallets are pairwise distinct
(each `PlayerState` is one participant) and none of them is already a key,
`Map.set` only ever appends, so the map lists exactly the active players with
a non-empty set of new hits, in player order. -/
theorem processLoop_hits (shots : List Nat) :
    ∀ (players : List PlayerState) (hits : List (String × List Nat))
      (elims survs : List String),
      (players.map (fun p => p.wallet)).Nodup →
      (∀ p ∈ players, ∀ kv ∈ hits, kv.1 ≠ p.wallet) →
      (processLoop shots players hits elims survs).1 =
        hits ++
          players.filterMap (fun p =>
            if ¬p.isEliminated ∧ newHitsOf shots p ≠ [] then
              some (p.wallet, newHitsOf shots p)
            else none) := by
  intro players
  induction players with
  | nil => intro hits elims survs _ _; simp [processLoop]
  | cons p rest ih =>
    intro hits elims survs hw hfresh
    have hwrest : (rest.map (fun p => p.wallet)).Nodup := (List.nodup_cons.1 hw).2
    have hwhead : p.wallet ∉ rest.map (fun p => p.wallet) := (List.nodup_cons.1 hw).1
    rw [processLoop]
    simp only []
    by_cases helim : p.isEliminated
    · rw [if_pos helim]
      rw [ih hits elims survs hwrest
        (fun q hq kv hkv => hfresh q (List.mem_cons_of_mem p hq) kv hkv)]
      simp [List.filterMap_cons, helim]
    · rw [if_neg helim]
      by_cases hnew : (newHitsOf shots p).length > 0
      · have hne : newHitsOf shots p ≠ [] := by
          intro h; rw [h] at hnew; exact absurd hnew (by simp)
        rw [if_pos hnew]
        have hset : mapSet hits p.wallet (newHitsOf shots p) =
            hits ++ [(p.wallet, newHitsOf shots p)] := by
          rw [mapSet, if_neg]
          simp only [List.any_eq_true, not_exists, not_and, decide_eq_true_eq]
          intro kv hkv
          exact fun h => hfresh p (List.mem_cons_self p rest) kv hkv h
        have hfresh' : ∀ q ∈ rest, ∀ kv ∈ hits ++ [(p.wallet, newHitsOf shots p)],
            kv.1 ≠ q.wallet := by
          intro q hq kv hkv
          rcases List.mem_append.1 hkv with hkv | hkv
          · exact hfresh q (List.mem_cons_of_mem p hq) kv hkv
          · rw [List.mem_singleton.1 hkv]
            intro h
            apply hwhead
            have h' : p.wallet = q.wallet := h
            rw [h']
            exact List.mem_map.2 ⟨q, hq, rfl⟩
        by_cases htot : p.hits.length + (newHitsOf shots p).length ≥ p.position.length
        · rw [if_pos htot, hset, ih _ _ _ hwrest hfresh']
          simp [List.filterMap_cons, helim, hne]
        · rw [if_neg htot, hset, ih _ _ _ hwrest hfresh']
          simp [List.filterMap_cons, helim, hne]
      · have hn : newHitsOf shots p = [] := by
          cases hl : newHitsOf shots p with
          | nil => rfl
          | cons a l => rw [hl] at hnew; exact absurd (by simp) hnew
        rw [if_neg hnew]
        by_cases htot : p.hits.length + (newHitsOf shots p).length ≥ p.position.length
        · rw [if_pos htot,
            ih _ _ _ hwrest (fun q hq kv hkv => hfresh q (List.mem_cons_of_mem p hq) kv hkv)]
          simp [List.filterMap_cons, helim, hn]
        · rw [if_neg htot,
            ih _ _ _ hwrest (fun q hq kv hkv => hfresh q (List.mem_cons_of_mem p hq) kv hkv)]
          simp [List.filterMap_cons, helim, hn]

/-- A successful `processSalvo` is the loop applied to the generated shots. -/
theorem processSalvo_ok {oreHash : String} {shotCount : Nat}
    {players : List PlayerState} {r : SalvoResult}
    (h : processSalvo oreHash shotCount players = .ok r) :
    generateShots oreHash shotCount = .ok r.shots ∧
      r.hits = (processLoop r.shots players [] [] []).1 ∧
      r.eliminations = (processLoop r.shots players [] [] []).2.1 ∧
      r.survivors = (processLoop r.shots players [] [] []).2.2 := by
  rw [processSalvo] at h
  cases hgen : generateShots oreHash shotCount with
  | error e => rw [hgen] at h; exact absurd h (by simp [Except.map])
  | ok shots =>
    rw [hgen] at h
    simp only [Except.map, Except.ok.injEq] at h
    subst h
    exact ⟨rfl, rfl, rfl, rfl⟩

/-- Wallet membership in the mapped filter of a wallet-duplicate-free player
list reduces to the filter predicate at that player. -/
theorem mem_map_wallet_filter {players : List PlayerState} {q : PlayerState → Bool}
    (hw : (players.map (fun p => p.wallet)).Nodup) {p : PlayerState}
    (hp : p ∈ players) :
    p.wallet ∈ (players.filter q).map (fun p => p.wallet) ↔ q p = true := by
  constructor
  · intro h
    obtain ⟨p', hp', heq⟩ := List.mem_map.1 h
    have hp'mem := (List.mem_filter.1 hp').1
    have heqp : p' = p := List.inj_on_of_nodup_map hw hp'mem hp heq
    subst heqp
    exact (List.mem_filter.1 hp').2
  · intro h
    exact List.mem_map.2 ⟨p, List.mem_filter.2 ⟨hp, h⟩, rfl⟩

/-- Key membership in the hits map (closed form) reduces to the entry
condition at that player. -/
theorem mem_hits_filterMap {shots : List Nat} {players : List PlayerState}
    (hw : (players.map (fun p => p.wallet)).Nodup) {p : PlayerState}
    (hp : p ∈ players) :
    (∃ v, (p.wallet, v) ∈
        players.filterMap (fun p =>
          if ¬p.isEliminated ∧ newHitsOf shots p ≠ [] then
            some (p.wallet, newHitsOf shots p)
          else none)) ↔
      (¬p.isEliminated ∧ newHitsOf shots p ≠ []) := by
  constructor
  · rintro ⟨v, hv⟩
    obtain ⟨p', hp', hsome⟩ := List.mem_filterMap.1 hv
    by_cases hcond : ¬p'.isEliminated ∧ newHitsOf shots p' ≠ []
    · rw [if_pos hcond] at hsome
      have heq : p'.wallet = p.wallet := congrArg Prod.fst (Option.some.inj hsome)
      have heqp : p' = p := List.inj_on_of_nodup_map hw hp' hp heq
      subst heqp
      exact hcond
    · rw [if_neg hcond] at hsome
      cases hsome
  · intro hcond
    exact ⟨newHitsOf shots p,
      List.mem_filterMap.2 ⟨p, hp, by rw [if_pos hcond]⟩⟩

/-- **C7.**  Per-player bookkeeping of `processSalvo`: an eliminated-coming-in
player appears in none of `hits`, `eliminations`, `survivors`; an active
player lands in `eliminations` exactly when their prior hits plus this
round's new hits cover their whole position and in `survivors` otherwise;
and the hits map has an entry for a player exactly when the player is active
with at least one new hit.  (Wallets are pairwise distinct: a wallet is the
identity of one participant.) -/
theorem claim_C7 (oreHash : String) (shotCount : Nat) (players : List PlayerState)
    (hw : (players.map (fun p => p.wallet)).Nodup) (r : SalvoResult)
    (hr : processSalvo oreHash shotCount players = .ok r) (p : PlayerState)
    (hp : p ∈ players) :
    (p.isEliminated = true →
      p.wallet ∉ r.eliminations ∧ p.wallet ∉ r.survivors ∧
        ∀ v, (p.wallet, v) ∉ r.hits) ∧
    (p.isEliminated = false →
      (p.wallet ∈ r.eliminations ↔
        p.position.length ≤ p.hits.length + (newHitsOf r.shots p).length) ∧
      (p.wallet ∈ r.survivors ↔
        p.hits.length + (newHitsOf r.shots p).length < p.position.length) ∧
      ((∃ v, (p.wallet, v) ∈ r.hits) ↔ newHitsOf r.shots p ≠ [])) := by
  obtain ⟨-, hh, he, hs⟩ := processSalvo_ok hr
  rw [processLoop_elims] at he
  rw [processLoop_survs] at hs
  rw [processLoop_hits r.shots players [] [] [] hw (by simp)] at hh
  rw [List.nil_append] at he hs
  rw [List.nil_append] at hh
  constructor
  · intro helim
    refine ⟨?_, ?_, ?_⟩
    · rw [he, mem_map_wallet_filter hw hp]
      simp [helim]
    · rw [hs, mem_map_wallet_filter hw hp]
      simp [helim]
    · intro v hv
      have := (mem_hits_filterMap hw hp).1 ⟨v, hh ▸ hv⟩
      rw [helim] at this
      exact this.1 rfl
  · intro helim
    refine ⟨?_, ?_, ?_⟩
    · rw [he, mem_map_wallet_filter hw hp]
      simp [helim]
    · rw [hs, mem_map_wallet_filter hw hp]
      simp [helim]
    · rw [hh]
      rw [mem_hits_filterMap hw hp]
      simp [helim]

/-- Witness for C7: concrete two-active-player salvo at the all-`a` seed
(shots `[9,10,13,14,22]`); the first player's two-cell ship is fully hit. -/
theorem claim_C7_witness :
    (("w1" : String) ∈
          (SalvoResult.mk [9, 10, 13, 14, 22] [("w1", [9, 10])] ["w1"] ["w2"]).eliminations ↔
        (PlayerState.mk "w1" none [9, 10] [] false none).position.length ≤
          (PlayerState.mk "w1" none [9, 10] [] false none).hits.length +
            (newHitsOf (SalvoResult.mk [9, 10, 13, 14, 22] [("w1", [9, 10])] ["w1"] ["w2"]).shots
              (PlayerState.mk "w1" none [9, 10] [] false none)).length) ∧
      (("w1" : String) ∈
          (SalvoResult.mk [9, 10, 13, 14, 22] [("w1", [9, 10])] ["w1"] ["w2"]).survivors ↔
        (PlayerState.mk "w1" none [9, 10] [] false none).hits.length +
            (newHitsOf (SalvoResult.mk [9, 10, 13, 14, 22] [("w1", [9, 10])] ["w1"] ["w2"]).shots
              (PlayerState.mk "w1" none [9, 10] [] false none)).length <
          (PlayerState.mk "w1" none [9, 10] [] false none).position.length) ∧
      ((∃ v, (("w1" : String), v) ∈
          (SalvoResult.mk [9, 10, 13, 14, 22] [("w1", [9, 10])] ["w1"] ["w2"]).hits) ↔
        newHitsOf (SalvoResult.mk [9, 10, 13, 14, 22] [("w1", [9, 10])] ["w1"] ["w2"]).shots
            (PlayerState.mk "w1" none [9, 10] [] false none) ≠ []) :=
  (claim_C7 "aaaaaaaaaaaaaaaaaaaaaaaaaaaaaaaaaaaaaaaaaaaaaaaaaaaaaaaaaaaaaaaa" 5
    [PlayerState.mk "w1" none [9, 10] [] false none,
     PlayerState.mk "w2" none [0, 1] [] false none]
    (by decide)
    (SalvoResult.mk [9, 10, 13, 14, 22] [("w1", [9, 10])] ["w1"] ["w2"])
    (by rw [processSalvo, generateShots_eq_insertionSort]; decide)
    (PlayerState.mk "w1" none [9, 10] [] false none) (by decide)).2 rfl

/-- **C10.**  `processSalvo` does not special-case an empty position: an
active player whose `position` is `[]` is always eliminated (cumulative hits
`0 ≥ 0`) and never a survivor, on every successful call. -/
theorem claim_C10 (oreHash : String) (shotCount : Nat) (players : List PlayerState)
    (hw : (players.map (fun p => p.wallet)).Nodup) (r : SalvoResult)
    (hr : processSalvo oreHash shotCount players = .ok r) (p : PlayerState)
    (hp : p ∈ players) (helim : p.isEliminated = false)
    (hpos : p.position = []) :
    p.wallet ∈ r.eliminations ∧ p.wallet ∉ r.survivors := by
  obtain ⟨-, -, he, hs⟩ := processSalvo_ok hr
  rw [processLoop_elims, List.nil_append] at he
  rw [processLoop_survs, List.nil_append] at hs
  constructor
  · rw [he, mem_map_wallet_filter hw hp]
    simp [helim, hpos]
  · rw [hs, mem_map_wallet_filter hw hp]
    simp [helim, hpos]

/-- Witness for C10: an empty-position active player is eliminated by the
very first salvo regardless of the shots. -/
theorem claim_C10_witness :
    ("empty" : String) ∈
        (SalvoResult.mk [9, 10, 13, 14, 22] [] ["empty"] ["w2"]).eliminations ∧
      ("empty" : String) ∉
        (SalvoResult.mk [9, 10, 13, 14, 22] [] ["empty"] ["w2"]).survivors :=
  claim_C10 "aaaaaaaaaaaaaaaaaaaaaaaaaaaaaaaaaaaaaaaaaaaaaaaaaaaaaaaaaaaaaaaa" 5
    [PlayerState.mk "empty" none [] [] false none,
     PlayerState.mk "w2" none [0, 1] [] false none]
    (by decide)
    (SalvoResult.mk [9, 10, 13, 14, 22] [] ["empty"] ["w2"])
    (by rw [processSalvo, generateShots_eq_insertionSort]; decide)
    (PlayerState.mk "empty" none [] [] false none) (by decide) (by decide) (by decide)

/-! ## Placement validation (claim C4) -/

/-- The horizontal `every` test is the adjacent-pairs chain of "same row and
exactly one greater". -/
theorem isHorizontalRun_iff : ∀ l : List Int,
    isHorizontalRun l = true ↔
      List.Chain' (fun a b => b.fdiv 5 = a.fdiv 5 ∧ b = a + 1) l
  | [] => by simp [isHorizontalRun]
  | [a] => by simp [isHorizontalRun]
  | a :: b :: rest => by
    rw [isHorizontalRun, List.chain'_cons, ← isHorizontalRun_iff (b :: rest)]
    simp [and_assoc]

/-- The vertical `every` test is the adjacent-pairs chain of "exactly five
greater". -/
theorem isVerticalRun_iff : ∀ l : List Int,
    isVerticalRun l = true ↔ List.Chain' (fun a b => b = a + 5) l
  | [] => by simp [isVerticalRun]
  | [a] => by simp [isVerticalRun]
  | a :: b :: rest => by
    rw [isVerticalRun, List.chain'_cons, ← isVerticalRun_iff (b :: rest)]
    simp

/-- **C4.**  For `shipSize ∈ {1,2,3}`: `validatePlacement` succeeds exactly
when the cells have the right count, are in `[0,24]`, are pairwise distinct,
and (for `shipSize ≥ 2`) after ascending sort form a same-row consecutive run
or a step-5 run; on success it returns the cells sorted ascending with the
derived orientation (`single` for size 1, otherwise `horizontal` or
`vertical` matching the run).  In every other case the result is the thrown
`PlacementError` (the `error` alternative of the model). -/
theorem claim_C4 (cells : List Int) (shipSize : Nat)
    (hs : shipSize = 1 ∨ shipSize = 2 ∨ shipSize = 3) :
    ((∃ v, validatePlacement cells shipSize = .ok v) ↔
      (cells.length = shipSize ∧ (∀ c ∈ cells, 0 ≤ c ∧ c ≤ 24) ∧ cells.Nodup ∧
        (2 ≤ shipSize →
          List.Chain' (fun a b => b.fdiv 5 = a.fdiv 5 ∧ b = a + 1)
              (cells.mergeSort (fun a b => a ≤ b)) ∨
            List.Chain' (fun a b => b = a + 5)
              (cells.mergeSort (fun a b => a ≤ b))))) ∧
    (∀ v, validatePlacement cells shipSize = .ok v →
      v.cells = cells.mergeSort (fun a b => a ≤ b) ∧
      v.cells.Sorted (· ≤ ·) ∧
      (shipSize = 1 → v.orientation = .single) ∧
      (2 ≤ shipSize →
        (v.orientation = .horizontal ∧
            List.Chain' (fun a b => b.fdiv 5 = a.fdiv 5 ∧ b = a + 1) v.cells) ∨
          (v.orientation = .vertical ∧
            List.Chain' (fun a b => b = a + 5) v.cells))) := by
  have hrange : (∀ c ∈ cells, 0 ≤ c ∧ c < 25) ↔ (∀ c ∈ cells, 0 ≤ c ∧ c ≤ 24) := by
    constructor <;> intro h c hc <;> have := h c hc <;> omega
  have hmain : ∀ v, validatePlacement cells shipSize = .ok v →
      cells.length = shipSize ∧ (∀ c ∈ cells, 0 ≤ c ∧ c ≤ 24) ∧ cells.Nodup ∧
        ((shipSize = 1 ∧ v = { cells := cells, orientation := .single }) ∨
          (2 ≤ shipSize ∧
            determineOrientation (cells.mergeSort (fun a b => a ≤ b)) =
              some v.orientation ∧
            v.cells = cells.mergeSort (fun a b => a ≤ b))) := by
    intro v hv
    rw [validatePlacement] at hv
    by_cases h1 : cells.length ≠ shipSize
    · rw [if_pos h1] at hv; exact Except.noConfusion hv
    rw [if_neg h1] at hv
    by_cases h2 : ¬∀ c ∈ cells, 0 ≤ c ∧ c < 25
    · rw [if_pos h2] at hv; exact Except.noConfusion hv
    rw [if_neg h2] at hv
    by_cases h3 : ¬cells.Nodup
    · rw [if_pos h3] at hv; exact Except.noConfusion hv
    rw [if_neg h3] at hv
    refine ⟨by omega, hrange.1 (not_not.1 h2), not_not.1 h3, ?_⟩
    by_cases h4 : shipSize = 1
    · rw [if_pos h4] at hv
      exact Or.inl ⟨h4, (Except.ok.inj hv).symm⟩
    · rw [if_neg h4] at hv
      simp only [] at hv
      rcases hdo : determineOrientation (cells.mergeSort (fun a b => a ≤ b)) with - | o
      · rw [hdo] at hv; exact Except.noConfusion hv
      · rw [hdo] at hv
        have hv' : v = { cells := cells.mergeSort (fun a b => a ≤ b), orientation := o } :=
          (Except.ok.inj hv).symm
        refine Or.inr ⟨by omega, ?_, by rw [hv']⟩
        rw [hv']
  have hdo_iff : ∀ o, determineOrientation (cells.mergeSort (fun a b => a ≤ b)) = some o →
      (o = .horizontal ∧
          List.Chain' (fun a b => b.fdiv 5 = a.fdiv 5 ∧ b = a + 1)
            (cells.mergeSort (fun a b => a ≤ b))) ∨
        (o = .vertical ∧
          List.Chain' (fun a b => b = a + 5) (cells.mergeSort (fun a b => a ≤ b))) := by
    intro o hdo
    rw [determineOrientation] at hdo
    by_cases hh : isHorizontalRun (cells.mergeSort (fun a b => a ≤ b)) = true
    · rw [if_pos hh] at hdo
      exact Or.inl ⟨(Option.some.inj hdo).symm, (isHorizontalRun_iff _).1 hh⟩
    · rw [if_neg hh] at hdo
      by_cases hvert : isVerticalRun (cells.mergeSort (fun a b => a ≤ b)) = true
      · rw [if_pos hvert] at hdo
        exact Or.inr ⟨(Option.some.inj hdo).symm, (isVerticalRun_iff _).1 hvert⟩
      · rw [if_neg hvert] at hdo; exact Option.noConfusion hdo
  constructor
  · constructor
    · rintro ⟨v, hv⟩
      obtain ⟨hlen, hr, hnd, hrest⟩ := hmain v hv
      refine ⟨hlen, hr, hnd, fun h2 => ?_⟩
      rcases hrest with ⟨h1, -⟩ | ⟨-, hdo, -⟩
      · omega
      · rcases hdo_iff _ hdo with ⟨-, hc⟩ | ⟨-, hc⟩
        · exact Or.inl hc
        · exact Or.inr hc
    · rintro ⟨hlen, hr, hnd, hcont⟩
      rw [validatePlacement]
      rw [if_neg (by omega : ¬cells.length ≠ shipSize)]
      rw [if_neg (not_not.2 (hrange.2 hr))]
      rw [if_neg (not_not.2 hnd)]
      by_cases h1 : shipSize = 1
      · rw [if_pos h1]
        exact ⟨_, rfl⟩
      · rw [if_neg h1]
        have h2 : 2 ≤ shipSize := by omega
        simp only []
        cases hh : isHorizontalRun (cells.mergeSort (fun a b => a ≤ b)) with
        | true =>
          have hdo : determineOrientation (cells.mergeSort (fun a b => a ≤ b)) =
              some .horizontal := by
            rw [determineOrientation, if_pos hh]
          rw [hdo]
          exact ⟨_, rfl⟩
        | false =>
          rcases hcont h2 with hc | hc
          · rw [← isHorizontalRun_iff] at hc
            rw [hc] at hh
            cases hh
          · rw [← isVerticalRun_iff] at hc
            have hdo : determineOrientation (cells.mergeSort (fun a b => a ≤ b)) =
                some .vertical := by
              rw [determineOrientation, if_neg (by rw [hh]; simp), if_pos hc]
            rw [hdo]
            exact ⟨_, rfl⟩
  · intro v hv
    obtain ⟨hlen, hr, hnd, hrest⟩ := hmain v hv
    rcases hrest with ⟨h1, hv'⟩ | ⟨h2, hdo, hcells⟩
    · subst hv'
      have hone : cells.length = 1 := by omega
      obtain ⟨c, rfl⟩ : ∃ c, cells = [c] := by
        cases cells with
        | nil => cases hone
        | cons a l =>
          cases l with
          | nil => exact ⟨a, rfl⟩
          | cons b l => simp at hone
      exact ⟨by simp, by simp, fun _ => rfl, fun habs => by omega⟩
    · refine ⟨hcells, by rw [hcells]; exact List.sorted_mergeSort' _, fun habs => by omega,
        fun _ => ?_⟩
      rcases hdo_iff _ hdo with ⟨ho, hc⟩ | ⟨ho, hc⟩
      · exact Or.inl ⟨ho, by rw [hcells]; exact hc⟩
      · exact Or.inr ⟨ho, by rw [hcells]; exact hc⟩

/-- Witness for C4 at the spec's own example `validatePlacement([1,0], 2)`. -/
theorem claim_C4_witness :
    ∃ v, validatePlacement [(1 : Int), 0] 2 = .ok v :=
  (claim_C4 [(1 : Int), 0] 2 (by decide)).1.2
    (by
      refine ⟨by decide, by decide, by decide, fun _ => Or.inl ?_⟩
      rw [List.mergeSort_eq_insertionSort]
      have h01 : List.insertionSort LE.le [(1 : Int), 0] = [0, 1] := by rfl
      rw [h01]
      exact List.chain'_pair.2 ⟨by decide, by decide⟩)

/-! ## Cell labels (claim C8) -/

/-- `Char.toUpper` written by its code-point arithmetic. -/
theorem toUpper_eq (c : Char) :
    c.toUpper =
      if 97 ≤ c.toNat ∧ c.toNat ≤ 122 then Char.ofNat (c.toNat - 32) else c := rfl

/-- Uppercasing is idempotent (an uppercased letter is no longer in the
lowercase range). -/
theorem toUpper_idem (c : Char) : c.toUpper.toUpper = c.toUpper := by
  rw [toUpper_eq c]
  by_cases h : 97 ≤ c.toNat ∧ c.toNat ≤ 122
  · rw [if_pos h, toUpper_eq]
    have ht : (Char.ofNat (c.toNat - 32)).toNat = c.toNat - 32 :=
      char_toNat_ofNat (by omega)
    rw [if_neg (by rw [ht]; omega)]
  · rw [if_neg h, toUpper_eq, if_neg h]

/-- Uppercasing twice is the same map as uppercasing once. -/
theorem map_toUpper_idem (cs : List Char) :
    (cs.map Char.toUpper).map Char.toUpper = cs.map Char.toUpper := by
  rw [List.map_map]
  exact List.map_congr_left (fun a _ => toUpper_idem a)

/-- **C8.**  Round trips of the cell labels: `parseCellLabel ∘ getCellLabel`
is the identity on `[0,24]`; on every accepted string, `getCellLabel` of the
parse is the uppercase normalization of the input; parsing is
case-insensitive (uppercasing the input does not change the result); and
every string whose uppercase form is not exactly one letter `A`-`E` followed
by one digit `1`-`5` is rejected with the `PlacementError` message. -/
theorem claim_C8 :
    (∀ c : Fin 25, parseCellLabel (getCellLabel c.val) = .ok c.val) ∧
    (∀ s n, parseCellLabel s = .ok n →
      getCellLabel n = String.mk (s.data.map Char.toUpper)) ∧
    (∀ s, parseCellLabel (String.mk (s.data.map Char.toUpper)) = parseCellLabel s) ∧
    (∀ s, (¬∃ l d, s.data.map Char.toUpper = [l, d] ∧
        'A' ≤ l ∧ l ≤ 'E' ∧ '1' ≤ d ∧ d ≤ '5') →
      parseCellLabel s = .error "Invalid cell label") := by
  refine ⟨by decide, ?_, ?_, ?_⟩
  · intro s n h
    rw [parseCellLabel] at h
    rcases hm : s.data.map Char.toUpper with - | ⟨l, cs⟩
    · rw [hm] at h; exact Except.noConfusion h
    rcases cs with - | ⟨d, cs'⟩
    · rw [hm] at h; exact Except.noConfusion h
    rcases cs' with - | ⟨e, cs''⟩
    · -- the accepted two-character shape
      rw [hm] at h
      rw [parseCellChars] at h
      by_cases hcond : 'A' ≤ l ∧ l ≤ 'E' ∧ '1' ≤ d ∧ d ≤ '5'
      · rw [if_pos hcond] at h
        simp only [] at h
        obtain ⟨h1, h2, h3, h4⟩ := hcond
        rw [char_le_iff] at h1 h2 h3 h4
        obtain ⟨eA, eE, e1, e5⟩ :
            ('A' : Char).toNat = 65 ∧ ('E' : Char).toNat = 69 ∧
              ('1' : Char).toNat = 49 ∧ ('5' : Char).toNat = 53 := by decide
        rw [eA] at h1
        rw [eE] at h2
        rw [e1] at h3
        rw [e5] at h4
        have hle : (l.toNat - 65) * 5 + ((d.toNat - 48) - 1) ≤ 24 := by omega
        rw [if_pos hle] at h
        have hn : n = (l.toNat - 65) * 5 + ((d.toNat - 48) - 1) :=
          (Except.ok.inj h).symm
        rw [getCellLabel]
        have hdiv : 65 + n / 5 = l.toNat := by omega
        have hmod : 48 + (n % 5 + 1) = d.toNat := by omega
        rw [hdiv, hmod, Char.ofNat_toNat, Char.ofNat_toNat]
      · rw [if_neg hcond] at h; exact Except.noConfusion h
    · rw [hm] at h; exact Except.noConfusion h
  · intro s
    rw [parseCellLabel, parseCellLabel]
    have hdata : (String.mk (s.data.map Char.toUpper)).data = s.data.map Char.toUpper :=
      rfl
    rw [hdata, map_toUpper_idem]
  · intro s hno
    rw [parseCellLabel]
    rcases hm : s.data.map Char.toUpper with - | ⟨l, cs⟩
    · rfl
    rcases cs with - | ⟨d, cs'⟩
    · rfl
    rcases cs' with - | ⟨e, cs''⟩
    · rw [parseCellChars]
      rw [if_neg (fun hcond => hno ⟨l, d, hm, hcond.1, hcond.2.1, hcond.2.2.1,
        hcond.2.2.2⟩)]
    · rfl

/-- Witness for C8: parsing the lowercase label `"a3"` gives cell 2, whose
label is the uppercase normalization `"A3"`. -/
theorem claim_C8_witness :
    getCellLabel 2 = String.mk ("a3".data.map Char.toUpper) :=
  claim_C8.2.1 "a3" 2 (by decide)

/-! ## State machine (claims C1, C5, C6, C9) -/

/-- **C1 (counterexample).**  `transition` reads the wall clock: in the
`active + SALVO_COMPLETE` repositioning branch the source computes
`deadline = new Date(Date.now() + repositionWindowMinutes·60·1000)`, so two
calls with identical `(state, event, context)` at different instants return
different `newState.deadline` values. -/
theorem claim_C1_counterexample :
    transition
        { status := .active, round := 1, deadline := none, winners := [],
          cancelReason := none }
        (.SALVO_COMPLETE "h" ["a", "b"])
        { config :=
            { entryFeeLamports := 0, maxPlayers := 2, shipSize := 2,
              shotsPerSalvo := 5, fillDeadlineMinutes := 30,
              repositionWindowMinutes := 5, maxRounds := 10 },
          players := [] } 0 ≠
      transition
        { status := .active, round := 1, deadline := none, winners := [],
          cancelReason := none }
        (.SALVO_COMPLETE "h" ["a", "b"])
        { config :=
            { entryFeeLamports := 0, maxPlayers := 2, shipSize := 2,
              shotsPerSalvo := 5, fillDeadlineMinutes := 30,
              repositionWindowMinutes := 5, maxRounds := 10 },
          players := [] } 1 := by
  decide

/-- **C1 (amended).**  `transition` is deterministic in
`(state, event, context)` except for the `deadline` field of the new state:
erasing `deadline`, two calls at arbitrary wall-clock instants agree on the
entire result — status, round, winners, cancel reason, and the full ordered
side-effect list (including `SCHEDULE_TIMEOUT`'s duration). -/
theorem claim_C1 (state : GameState) (event : GameEvent)
    (context : StateMachineContext) (now₁ now₂ : Nat) :
    eraseDeadline (transition state event context now₁) =
      eraseDeadline (transition state event context now₂) := by
  rw [transition, transition]
  cases hst : state.status
  case waiting => rfl
  case repositioning => rfl
  case complete => rfl
  case cancelled => rfl
  case active =>
    cases event
    case SALVO_COMPLETE oreHash survivors =>
      simp only [handleActive]
      split_ifs <;> rfl
    all_goals rfl

/-- **C5 (counterexample).**  The claim reads `context.players` as the
post-join snapshot (including the joiner).  Under that reading, with
`maxPlayers = 3` and two players present (so post-join count
`2 = maxPlayers - 1`), the claim says the game stays `waiting`; the code
computes `players.length + 1 ≥ maxPlayers` and starts the game. -/
theorem claim_C5_counterexample :
    (transition
        { status := .waiting, round := 0, deadline := none, winners := [],
          cancelReason := none }
        (.PLAYER_JOINED "p2" [2, 3])
        { config :=
            { entryFeeLamports := 0, maxPlayers := 3, shipSize := 2,
              shotsPerSalvo := 5, fillDeadlineMinutes := 30,
              repositionWindowMinutes := 5, maxRounds := 10 },
          players :=
            [{ wallet := "p1", twitterHandle := none, position := [0, 1],
               hits := [], isEliminated := false, eliminatedRound := none },
             { wallet := "p2", twitterHandle := none, position := [2, 3],
               hits := [], isEliminated := false, eliminatedRound := none }] }
        0).map (fun r => r.newState.status) = .ok .active := by
  decide

/-- **C5 (amended).**  In state `waiting`, `PLAYER_JOINED` starts the game
(status `active`, round 1, with `NOTIFY_PLAYERS`, `NOTIFY_PLAYERS`,
`POST_TWEET`, `TRIGGER_SALVO` in order) exactly when
`players.length + 1 ≥ config.maxPlayers`, where `context.players` is the
snapshot *excluding* the just-joined player (the machine itself adds one for
the joiner, as its unit tests do); otherwise the state is returned unchanged
with a single `NOTIFY_PLAYERS` effect. -/
theorem claim_C5 (state : GameState) (hst : state.status = .waiting)
    (wallet : String) (position : List Nat) (config : GameConfig)
    (players : List PlayerState) (now : Nat) :
    (config.maxPlayers ≤ players.length + 1 →
      transition state (.PLAYER_JOINED wallet position)
          { config := config, players := players } now =
        .ok { newState :=
                { status := .active, round := 1, deadline := none,
                  winners := [], cancelReason := none },
              sideEffects :=
                [.NOTIFY_PLAYERS
                    ("Player joined! " ++ toString (players.length + 1) ++ "/" ++
                      toString config.maxPlayers) none,
                 .NOTIFY_PLAYERS "Game is full! Starting..." none,
                 .POST_TWEET "Game starting! All players joined.",
                 .TRIGGER_SALVO] }) ∧
    (players.length + 1 < config.maxPlayers →
      transition state (.PLAYER_JOINED wallet position)
          { config := config, players := players } now =
        .ok { newState := state,
              sideEffects :=
                [.NOTIFY_PLAYERS
                    ("Player joined! " ++ toString (players.length + 1) ++ "/" ++
                      toString config.maxPlayers) none] }) := by
  have ht : transition state (.PLAYER_JOINED wallet position)
      { config := config, players := players } now =
      handleWaiting state (.PLAYER_JOINED wallet position) config players := by
    rw [transition, hst]
  constructor
  · intro hmax
    rw [ht, handleWaiting,
      if_pos (by omega : players.length + 1 ≥ config.maxPlayers)]
    rfl
  · intro hlt
    rw [ht, handleWaiting,
      if_neg (by omega : ¬players.length + 1 ≥ config.maxPlayers)]

/-- Witness for C5: `maxPlayers = 2`, one player present, the second joins —
the game starts with a `TRIGGER_SALVO` effect. -/
theorem claim_C5_witness :
    transition createInitialState (.PLAYER_JOINED "p2" [2, 3])
        { config :=
            { entryFeeLamports := 0, maxPlayers := 2, shipSize := 2,
              shotsPerSalvo := 5, fillDeadlineMinutes := 30,
              repositionWindowMinutes := 5, maxRounds := 10 },
          players :=
            [{ wallet := "p1", twitterHandle := none, position := [0, 1],
               hits := [], isEliminated := false, eliminatedRound := none }] }
        0 =
      .ok { newState :=
              { status := .active, round := 1, deadline := none, winners := [],
                cancelReason := none },
            sideEffects :=
              [.NOTIFY_PLAYERS "Player joined! 2/2" none,
               .NOTIFY_PLAYERS "Game is full! Starting..." none,
               .POST_TWEET "Game starting! All players joined.",
               .TRIGGER_SALVO] } := by
  have h := (claim_C5 createInitialState rfl "p2" [2, 3]
    { entryFeeLamports := 0, maxPlayers := 2, shipSize := 2, shotsPerSalvo := 5,
      fillDeadlineMinutes := 30, repositionWindowMinutes := 5, maxRounds := 10 }
    [{ wallet := "p1", twitterHandle := none, position := [0, 1], hits := [],
       isEliminated := false, eliminatedRound := none }] 0).1 (by decide)
  rw [h]
  decide

/-- **C6.**  In state `active`, `SALVO_COMPLETE` with an empty survivors list
always completes the game at the same round; the winners are exactly the
wallets of the context players whose `eliminatedRound` equals the current
round or whose `isEliminated` flag is false, and the side effects are
`PROCESS_PAYOUTS` with that same winners list, then `NOTIFY_PLAYERS`, then
`POST_TWEET`. -/
theorem claim_C6 (state : GameState) (hst : state.status = .active)
    (oreHash : String) (config : GameConfig) (players : List PlayerState)
    (now : Nat) :
    transition state (.SALVO_COMPLETE oreHash [])
        { config := config, players := players } now =
      .ok { newState :=
              { status := .complete, round := state.round, deadline := none,
                winners :=
                  (players.filter
                      (fun p => p.eliminatedRound = some state.round ∨
                        ¬p.isEliminated)).map (fun p => p.wallet),
                cancelReason := none },
            sideEffects :=
              [.PROCESS_PAYOUTS
                  ((players.filter
                      (fun p => p.eliminatedRound = some state.round ∨
                        ¬p.isEliminated)).map (fun p => p.wallet)),
               .NOTIFY_PLAYERS
                  ("Game over! All ships sunk in final salvo. Pot split among " ++
                    toString ((players.filter
                        (fun p => p.eliminatedRound = some state.round ∨
                          ¬p.isEliminated)).map (fun p => p.wallet)).length ++
                    " players.") none,
               .POST_TWEET
                  ("Game complete! Pot split among " ++
                    toString ((players.filter
                        (fun p => p.eliminatedRound = some state.round ∨
                          ¬p.isEliminated)).map (fun p => p.wallet)).length ++
                    " survivors.")] } := by
  have ht : transition state (.SALVO_COMPLETE oreHash [])
      { config := config, players := players } now =
      handleActive state (.SALVO_COMPLETE oreHash []) config players now := by
    rw [transition, hst]
  rw [ht, handleActive]
  rfl

/-- Witness for C6: round 2, both players already flagged eliminated, one in
round 2 (winner) and one in round 1 (loser). -/
theorem claim_C6_witness :
    transition
        { status := .active, round := 2, deadline := none, winners := [],
          cancelReason := none }
        (.SALVO_COMPLETE "h" [])
        { config :=
            { entryFeeLamports := 0, maxPlayers := 2, shipSize := 1,
              shotsPerSalvo := 5, fillDeadlineMinutes := 30,
              repositionWindowMinutes := 5, maxRounds := 10 },
          players :=
            [{ wallet := "a", twitterHandle := none, position := [0], hits := [0],
               isEliminated := true, eliminatedRound := some 2 },
             { wallet := "b", twitterHandle := none, position := [1], hits := [1],
               isEliminated := true, eliminatedRound := some 1 }] } 7 =
      .ok { newState :=
              { status := .complete, round := 2, deadline := none,
                winners := ["a"], cancelReason := none },
            sideEffects :=
              [.PROCESS_PAYOUTS ["a"],
               .NOTIFY_PLAYERS
                  "Game over! All ships sunk in final salvo. Pot split among 1 players."
                  none,
               .POST_TWEET "Game complete! Pot split among 1 survivors."] } := by
  have h := claim_C6
    { status := .active, round := 2, deadline := none, winners := [],
      cancelReason := none } rfl "h"
    { entryFeeLamports := 0, maxPlayers := 2, shipSize := 1, shotsPerSalvo := 5,
      fillDeadlineMinutes := 30, repositionWindowMinutes := 5, maxRounds := 10 }
    [{ wallet := "a", twitterHandle := none, position := [0], hits := [0],
       isEliminated := true, eliminatedRound := some 2 },
     { wallet := "b", twitterHandle := none, position := [1], hits := [1],
       isEliminated := true, eliminatedRound := some 1 }] 7
  rw [h]
  decide

/-- **C9.**  `complete` and `cancelled` are terminal: every event there
yields `InvalidTransitionError` carrying the current status and the event,
and no new state. -/
theorem claim_C9 (state : GameState) (event : GameEvent)
    (context : StateMachineContext) (now : Nat)
    (hst : state.status = .complete ∨ state.status = .cancelled) :
    transition state event context now =
      .error { currentStatus := state.status, event := event } := by
  rcases hst with h | h <;> rw [transition, h]

/-- Witness for C9: `ADMIN_CANCEL` in a completed game is rejected with the
status and event in the error. -/
theorem claim_C9_witness :
    transition
        { status := .complete, round := 3, deadline := none, winners := ["w"],
          cancelReason := none } .ADMIN_CANCEL
        { config :=
            { entryFeeLamports := 0, maxPlayers := 2, shipSize := 2,
              shotsPerSalvo := 5, fillDeadlineMinutes := 30,
              repositionWindowMinutes := 5, maxRounds := 10 },
          players := [] } 0 =
      .error { currentStatus := .complete, event := .ADMIN_CANCEL } :=
  claim_C9
    { status := .complete, round := 3, deadline := none, winners := ["w"],
      cancelReason := none } .ADMIN_CANCEL
    { config :=
        { entryFeeLamports := 0, maxPlayers := 2, shipSize := 2,
          shotsPerSalvo := 5, fillDeadlineMinutes := 30,
          repositionWindowMinutes := 5, maxRounds := 10 },
      players := [] } 0 (Or.inl rfl)

end BattleDinghy
